import Mathlib

/- Verification development for the hourly BTC OHLCV export scripts
   get_btc_hourly_for_grid_research.py, get_btc_hourly_coingecko.py and
   get_btcusdt_hourly.py.  Python integers are modelled as Int or Nat,
   float prices and volumes as exact rationals, raised exceptions as
   Except values, and the HTTP layer as an environment of responses. -/

/-- HourlyBar is one row of the hourly OHLCV frame assembled by
    build_ohlcv_from_samples and fetch_binance_klines.  The time field counts
    whole hours since the Unix epoch; the scripts keep the same instant as an
    hour aligned pandas timestamp. -/
structure HourlyBar where
  time : Int
  Open : ℚ
  High : ℚ
  Low : ℚ
  Close : ℚ
  Volume : ℚ
  deriving DecidableEq, Repr

/-- isFlatBar is the per row predicate inside flat_ohlc_ratio of
    get_btc_hourly_for_grid_research.py line 144: Open equals High, Open
    equals Low and Open equals Close. -/
def isFlatBar (b : HourlyBar) : Bool :=
  b.Open == b.High && b.Open == b.Low && b.Open == b.Close

/-- flat_ohlc_ratio from get_btc_hourly_for_grid_research.py lines 142 to 145:
    1.0 on an empty frame, otherwise the number of flat rows divided by the
    number of rows, as an exact rational (mkRat is exact integer division). -/
def flat_ohlc_ratio (df_ohlcv : List HourlyBar) : ℚ :=
  if df_ohlcv = [] then 1 else mkRat (df_ohlcv.countP isFlatBar) df_ohlcv.length

/-- Provider is the provenance tag of an accepted result: which provider in
    the fallback chain produced the bars that main writes out. -/
inductive Provider where
  | coingecko
  | binance
  deriving DecidableEq, Repr

/-- binanceFallback is the second stage of main in
    get_btc_hourly_for_grid_research.py lines 173 to 182: on success the
    Binance bars are written, on failure the exception is re raised. -/
def binanceFallback (b : Except String (List HourlyBar)) :
    Except String (Provider × List HourlyBar) :=
  match b with
  | .ok bars => .ok (.binance, bars)
  | .error e => .error e

/-- mainPipeline models the orchestration in main of
    get_btc_hourly_for_grid_research.py lines 158 to 182.  The CoinGecko
    stage, fetch_via_coingecko, and the Binance stage, fetch_binance_klines,
    enter as their outcomes: either a bar list or the message of a raised
    exception.  A CoinGecko success is accepted when its flat ratio is
    strictly below the threshold, otherwise main falls through to Binance,
    exactly as after a raised CoinGecko exception. -/
def mainPipeline (cg b : Except String (List HourlyBar)) (threshold : ℚ) :
    Except String (Provider × List HourlyBar) :=
  match cg with
  | .ok bars =>
      if flat_ohlc_ratio bars < threshold then .ok (.coingecko, bars)
      else binanceFallback b
  | .error _ => binanceFallback b

/-- tenBars is the synthetic ten bar frame of the specification: nine flat
    bars and one genuine bar. -/
def tenBars : List HourlyBar :=
  ((List.range 9).map (fun i =>
    { time := (i : Int), Open := (i : ℚ), High := (i : ℚ), Low := (i : ℚ),
      Close := (i : ℚ), Volume := 1 }))
  ++ [{ time := 9, Open := 1, High := 2, Low := 1, Close := 2, Volume := 1 }]

/-- C1: for every non empty bar list the flat ratio equals the number of bars
    with open, high, low and close all equal, divided by the number of bars;
    nine flat bars out of ten give ratio nine tenths; and the orchestrator
    accepts the CoinGecko bars exactly when the ratio is strictly below the
    threshold, otherwise it falls through to the Binance stage although no
    exception was raised. -/
theorem claim_C1_flat_ratio_gate (bars : List HourlyBar) (hb : bars ≠ [])
    (t : ℚ) (b : Except String (List HourlyBar)) :
    flat_ohlc_ratio bars = (bars.countP isFlatBar : ℚ) / (bars.length : ℚ)
    ∧ (mainPipeline (.ok bars) b t = .ok (.coingecko, bars)
        ↔ flat_ohlc_ratio bars < t)
    ∧ (¬ flat_ohlc_ratio bars < t →
        mainPipeline (.ok bars) b t = binanceFallback b)
    ∧ flat_ohlc_ratio tenBars = mkRat 9 10
    ∧ ¬ flat_ohlc_ratio tenBars < mkRat 8 10 := by
  refine ⟨?_, ⟨?_, ?_⟩, ?_, by decide, by decide⟩
  · rw [flat_ohlc_ratio, if_neg hb, Rat.mkRat_eq_div]
    push_cast
    rfl
  · intro h
    by_contra hr
    rw [mainPipeline.eq_def] at h
    simp only [] at h
    rw [if_neg hr] at h
    cases b with
    | ok bars2 => simp [binanceFallback] at h
    | error e => simp [binanceFallback] at h
  · intro h
    simp [mainPipeline, h]
  · intro h
    simp [mainPipeline, h]

/-- C1 witness: the general gate theorem applied to the concrete ten bar
    frame at the default threshold eight tenths. -/
theorem claim_C1_flat_ratio_gate_witness :
    flat_ohlc_ratio tenBars
        = (tenBars.countP isFlatBar : ℚ) / (tenBars.length : ℚ)
    ∧ (mainPipeline (.ok tenBars) (.ok []) (mkRat 8 10)
          = .ok (.coingecko, tenBars)
        ↔ flat_ohlc_ratio tenBars < mkRat 8 10)
    ∧ (¬ flat_ohlc_ratio tenBars < mkRat 8 10 →
        mainPipeline (.ok tenBars) (.ok []) (mkRat 8 10)
          = binanceFallback (.ok []))
    ∧ flat_ohlc_ratio tenBars = mkRat 9 10
    ∧ ¬ flat_ohlc_ratio tenBars < mkRat 8 10 :=
  claim_C1_flat_ratio_gate tenBars (by decide) (mkRat 8 10) (.ok [])

/-- C2: when the CoinGecko stage raises, main logs and falls through to the
    Binance stage without re raising: a Binance success is accepted with the
    Binance bars, and only a failure of this last stage surfaces an error,
    namely the Binance one. -/
theorem claim_C2_fallback_on_error :
    (∀ (e : String) (t : ℚ) (bars : List HourlyBar),
        mainPipeline (.error e) (.ok bars) t = .ok (.binance, bars))
    ∧ (∀ (e e2 : String) (t : ℚ),
        mainPipeline (.error e) (.error e2) t = .error e2) :=
  ⟨fun _ _ _ => rfl, fun _ _ _ => rfl⟩

/-- C10: flat_ohlc_ratio of an empty frame is one, so for any threshold at
    most one the quality gate never accepts an empty CoinGecko result and
    main always falls through to the Binance stage. -/
theorem claim_C10_empty_never_accepted (t : ℚ) (ht : t ≤ 1) :
    flat_ohlc_ratio [] = 1
    ∧ ¬ flat_ohlc_ratio [] < t
    ∧ ∀ b, mainPipeline (.ok []) b t = binanceFallback b := by
  have h1 : flat_ohlc_ratio [] = 1 := rfl
  have h2 : ¬ flat_ohlc_ratio [] < t := by rw [h1]; exact not_lt.mpr ht
  exact ⟨h1, h2, fun b => by simp [mainPipeline, h2]⟩

/-- C10 witness: the empty frame is rejected at the default threshold eight
    tenths. -/
theorem claim_C10_empty_never_accepted_witness :
    flat_ohlc_ratio [] = 1
    ∧ ¬ flat_ohlc_ratio [] < mkRat 8 10
    ∧ ∀ b, mainPipeline (.ok []) b (mkRat 8 10) = binanceFallback b :=
  claim_C10_empty_never_accepted (mkRat 8 10) (by decide)

/-- Samples is a raw sample stream: pairs of a millisecond timestamp and a
    float value, as collected by fetch_via_coingecko. -/
abbrev Samples := List (Int × ℚ)

/-- toSec is the millisecond to second truncation time_ms floor divided by
    1000 applied when the scripts build the pandas time index. -/
def toSec (time_ms : Int) : Int := Int.fdiv time_ms 1000

/-- hourOf is the hour bucket of a second timestamp: the pandas hourly
    resample groups a tz aware second timestamp by its floor hour. -/
def hourOf (time_s : Int) : Int := Int.fdiv time_s 3600

/-- secSamples truncates every timestamp of a stream to seconds, as
    pd.to_datetime of time_ms floor divided by 1000 does. -/
def secSamples (xs : Samples) : Samples := xs.map (fun x => (toSec x.1, x.2))

/-- valuesAt lists, in arrival order, the values a stream holds at one
    timestamp key; it spells out what the pandas index join sees at a key. -/
def valuesAt (xs : Samples) (k : Int) : List ℚ :=
  (xs.filter (fun x => decide (x.1 = k))).map Prod.snd

/-- sortedKeys is the ascending duplicate free union of the two index key
    sets, the index of the outer join in build_ohlcv_from_samples line 64. -/
def sortedKeys (ps vs : Samples) : List Int :=
  ((ps.map Prod.fst ++ vs.map Prod.fst).insertionSort (fun a b => a ≤ b)).dedup

/-- JoinedRow is one row of the joined frame: timestamp key in seconds, price
    column which may be missing before the forward fill, and volume column
    after the fillna with zero. -/
abbrev JoinedRow := Int × Option ℚ × ℚ

/-- rowsAtKey gives the joined rows at one key of the outer join of lines 64
    to 66: a key only in the volume stream yields rows with a missing price, a
    key only in the price stream yields rows whose missing volume is filled
    with zero, and a key in both yields the pandas many to many product. -/
def rowsAtKey (ps vs : Samples) (k : Int) : List JoinedRow :=
  match valuesAt ps k with
  | [] => (valuesAt vs k).map (fun v => (k, none, v))
  | p :: P =>
    match valuesAt vs k with
    | [] => (p :: P).map (fun q => (k, some q, (0:ℚ)))
    | v :: V => (p :: P).flatMap (fun q => (v :: V).map (fun w => (k, some q, w)))

/-- joinedRows is the joined frame of build_ohlcv_from_samples lines 60 to
    69: without volume samples the price frame sorted by key with a zero
    volume column, otherwise the outer join over the sorted key union. -/
def joinedRows (ps vs : Samples) : List JoinedRow :=
  if vs = [] then
    (ps.insertionSort (fun a b => a.1 ≤ b.1)).map
      (fun x => (x.1, some x.2, (0:ℚ)))
  else (sortedKeys ps vs).flatMap (rowsAtKey ps vs)

/-- ffill is the forward fill of line 65: a row with a missing price receives
    the most recent earlier price, and rows before the first price stay
    missing. -/
def ffill (lastP : Option ℚ) : List JoinedRow → List JoinedRow
  | [] => []
  | (t, none, v) :: rest => (t, lastP, v) :: ffill lastP rest
  | (t, some p, v) :: rest => (t, some p, v) :: ffill (some p) rest

/-- barOfPrices builds the bar of one hour bucket from its non missing prices
    in row order and its summed volume, as resample ohlc does: open is the
    first price, close the last, high the maximum, low the minimum; a bucket
    with no non missing price keeps a missing close and is dropped by the
    dropna of line 72. -/
def barOfPrices (hb : Int) (vol : ℚ) : List ℚ → Option HourlyBar
  | [] => none
  | p :: ps =>
      some { time := hb, Open := p, High := ps.foldl max p,
             Low := ps.foldl min p, Close := ps.getLastD p, Volume := vol }

/-- barOfGroup applies barOfPrices to one contiguous run of joined rows that
    share an hour bucket. -/
def barOfGroup : List JoinedRow → Option HourlyBar
  | [] => none
  | r :: rest =>
      barOfPrices (hourOf r.1) (((r :: rest).map (fun x => x.2.2)).sum)
        ((r :: rest).filterMap (fun x => x.2.1))

/-- resampleHourly is the hourly resample of lines 70 to 72: the key sorted
    joined rows are grouped into hour buckets and each bucket with at least
    one non missing price becomes a bar. -/
def resampleHourly (rows : List JoinedRow) : List HourlyBar :=
  (rows.splitBy (fun a b => decide (hourOf a.1 = hourOf b.1))).filterMap barOfGroup

/-- build_ohlcv_from_samples models the function of the same name in
    get_btc_hourly_for_grid_research.py lines 54 to 78: it raises on an empty
    price stream and otherwise joins, forward fills and resamples the two
    streams into hourly bars. -/
def build_ohlcv_from_samples (all_prices all_vols : Samples) :
    Except String (List HourlyBar) :=
  if all_prices = [] then .error "No price samples"
  else .ok (resampleHourly (ffill none
      (joinedRows (secSamples all_prices) (secSamples all_vols))))

theorem left_le_foldl_max (a : ℚ) (l : List ℚ) : a ≤ l.foldl max a := by
  induction l generalizing a with
  | nil => exact le_refl a
  | cons x l ih => exact le_trans (le_max_left a x) (ih (max a x))

theorem mem_le_foldl_max (x : ℚ) (l : List ℚ) :
    ∀ a : ℚ, x ∈ l → x ≤ l.foldl max a := by
  induction l with
  | nil => intro a h; cases h
  | cons y l ih =>
    intro a h
    rcases List.mem_cons.mp h with h | h
    · subst h
      exact le_trans (le_max_right a x) (left_le_foldl_max _ l)
    · exact ih (max a y) h

theorem foldl_min_le_left (a : ℚ) (l : List ℚ) : l.foldl min a ≤ a := by
  induction l generalizing a with
  | nil => exact le_refl a
  | cons x l ih => exact le_trans (ih (min a x)) (min_le_left a x)

theorem foldl_min_le_mem (x : ℚ) (l : List ℚ) :
    ∀ a : ℚ, x ∈ l → l.foldl min a ≤ x := by
  induction l with
  | nil => intro a h; cases h
  | cons y l ih =>
    intro a h
    rcases List.mem_cons.mp h with h | h
    · subst h
      exact le_trans (foldl_min_le_left _ l) (min_le_right a x)
    · exact ih (min a y) h

theorem mem_ffill_key (rows : List JoinedRow) (r : JoinedRow) :
    ∀ st : Option ℚ, r ∈ ffill st rows → ∃ r2 ∈ rows, r2.1 = r.1 := by
  induction rows with
  | nil => intro st hr; simp [ffill] at hr
  | cons x rest ih =>
    obtain ⟨t, pr, v⟩ := x
    intro st hr
    cases pr with
    | none =>
      simp only [ffill, List.mem_cons] at hr
      rcases hr with h | h
      · exact ⟨(t, none, v), List.mem_cons_self _ _, by rw [h]⟩
      · rcases ih st h with ⟨r2, h2, hk⟩
        exact ⟨r2, List.mem_cons_of_mem _ h2, hk⟩
    | some p =>
      simp only [ffill, List.mem_cons] at hr
      rcases hr with h | h
      · exact ⟨(t, some p, v), List.mem_cons_self _ _, by rw [h]⟩
      · rcases ih (some p) h with ⟨r2, h2, hk⟩
        exact ⟨r2, List.mem_cons_of_mem _ h2, hk⟩

theorem rowsAtKey_key (ps vs : Samples) (k : Int) (r : JoinedRow)
    (hr : r ∈ rowsAtKey ps vs k) : r.1 = k := by
  rw [rowsAtKey] at hr
  cases hP : valuesAt ps k with
  | nil =>
    rw [hP] at hr
    simp only [] at hr
    rcases List.mem_map.mp hr with ⟨v, hv, rfl⟩
    rfl
  | cons p P =>
    rw [hP] at hr
    simp only [] at hr
    cases hV : valuesAt vs k with
    | nil =>
      rw [hV] at hr
      simp only [] at hr
      rcases List.mem_map.mp hr with ⟨q, hq, rfl⟩
      rfl
    | cons v V =>
      rw [hV] at hr
      simp only [] at hr
      rcases List.mem_flatMap.mp hr with ⟨q, hq, hrq⟩
      rcases List.mem_map.mp hrq with ⟨w, hw, rfl⟩
      rfl

theorem mem_joinedRows_key (ps vs : Samples) (r : JoinedRow)
    (hr : r ∈ joinedRows ps vs) :
    r.1 ∈ ps.map Prod.fst ∨ r.1 ∈ vs.map Prod.fst := by
  rw [joinedRows] at hr
  by_cases hv : vs = []
  · rw [if_pos hv] at hr
    rcases List.mem_map.mp hr with ⟨x, hx, rfl⟩
    exact Or.inl (List.mem_map.mpr
      ⟨x, (List.perm_insertionSort _ ps).mem_iff.mp hx, rfl⟩)
  · rw [if_neg hv] at hr
    rcases List.mem_flatMap.mp hr with ⟨k, hk, hrk⟩
    rw [rowsAtKey_key ps vs k r hrk]
    have h1 : k ∈ ps.map Prod.fst ++ vs.map Prod.fst :=
      (List.perm_insertionSort _ _).mem_iff.mp (List.mem_dedup.mp hk)
    exact List.mem_append.mp h1

theorem key_of_secSamples (xs : Samples) (k : Int)
    (hk : k ∈ (secSamples xs).map Prod.fst) :
    ∃ x ∈ xs, toSec x.1 = k := by
  rcases List.mem_map.mp hk with ⟨y, hy, rfl⟩
  rcases List.mem_map.mp hy with ⟨x, hx, rfl⟩
  exact ⟨x, hx, rfl⟩

theorem time_of_mem_resampleHourly (rows : List JoinedRow) (b : HourlyBar)
    (hb : b ∈ resampleHourly rows) : ∃ r ∈ rows, b.time = hourOf r.1 := by
  rw [resampleHourly] at hb
  rcases List.mem_filterMap.mp hb with ⟨grp, hgrp, hbar⟩
  cases grp with
  | nil => simp [barOfGroup] at hbar
  | cons r rest =>
    refine ⟨r, ?_, ?_⟩
    · have hmem : r ∈ (rows.splitBy
          (fun a b => decide (hourOf a.1 = hourOf b.1))).flatten :=
        List.mem_flatten.mpr ⟨r :: rest, hgrp, List.mem_cons_self _ _⟩
      rwa [List.flatten_splitBy] at hmem
    · rw [barOfGroup] at hbar
      cases hps : (r :: rest).filterMap (fun x => x.2.1) with
      | nil => rw [hps] at hbar; simp [barOfPrices] at hbar
      | cons p ps =>
        rw [hps] at hbar
        simp only [barOfPrices, Option.some.injEq] at hbar
        rw [← hbar]

/-- Equality of Except values over decidable components is decidable; this
    lets concrete runs of the model be checked by evaluation. -/
instance instDecEqExcept {e a : Type} [DecidableEq e] [DecidableEq a] :
    DecidableEq (Except e a) := fun x y =>
  match x, y with
  | .ok u, .ok w =>
      if h : u = w then .isTrue (congrArg Except.ok h)
      else .isFalse (fun hc => h (Except.ok.inj hc))
  | .error u, .error w =>
      if h : u = w then .isTrue (congrArg Except.error h)
      else .isFalse (fun hc => h (Except.error.inj hc))
  | .ok _, .error _ => .isFalse (fun hc => Except.noConfusion hc)
  | .error _, .ok _ => .isFalse (fun hc => Except.noConfusion hc)

/-- C9: every bar produced by build_ohlcv_from_samples from any pair of input
    sample streams satisfies the OHLC invariant: low is at most open and
    close, and open and close are at most high. -/
theorem claim_C9_bar_invariant (all_prices all_vols : Samples)
    (bars : List HourlyBar)
    (hres : build_ohlcv_from_samples all_prices all_vols = .ok bars) :
    ∀ b ∈ bars,
      b.Low ≤ b.Open ∧ b.Open ≤ b.High ∧ b.Low ≤ b.Close ∧ b.Close ≤ b.High := by
  intro b hb
  rw [build_ohlcv_from_samples] at hres
  by_cases hp0 : all_prices = []
  · rw [if_pos hp0] at hres
    simp at hres
  · rw [if_neg hp0] at hres
    injection hres with hres
    subst hres
    rw [resampleHourly] at hb
    rcases List.mem_filterMap.mp hb with ⟨grp, hgrp, hbar⟩
    cases grp with
    | nil => simp [barOfGroup] at hbar
    | cons r rest =>
      rw [barOfGroup] at hbar
      cases hps : (r :: rest).filterMap (fun x => x.2.1) with
      | nil => rw [hps] at hbar; simp [barOfPrices] at hbar
      | cons p ps =>
        rw [hps] at hbar
        simp only [barOfPrices, Option.some.injEq] at hbar
        rw [← hbar]
        refine ⟨foldl_min_le_left p ps, left_le_foldl_max p ps, ?_, ?_⟩
        · rcases List.mem_cons.mp (List.getLastD_mem_cons ps p) with h | h
          · rw [h]
            exact foldl_min_le_left p ps
          · exact foldl_min_le_mem _ ps p h
        · rcases List.mem_cons.mp (List.getLastD_mem_cons ps p) with h | h
          · rw [h]
            exact left_le_foldl_max p ps
          · exact mem_le_foldl_max _ ps p h

/-- barW is the single bar the aggregator builds from a concrete two sample
    price stream inside one hour with one volume sample. -/
def barW : HourlyBar :=
  { time := 0, Open := 10, High := 12, Low := 10, Close := 12, Volume := 3 }

/-- C9 witness: the invariant theorem applied to the concrete run that
    produces barW. -/
theorem claim_C9_bar_invariant_witness :
    barW.Low ≤ barW.Open ∧ barW.Open ≤ barW.High
    ∧ barW.Low ≤ barW.Close ∧ barW.Close ≤ barW.High :=
  claim_C9_bar_invariant [(0, 10), (1800000, 12)] [(0, 3)] [barW]
    (by with_unfolding_all rfl) barW (List.mem_cons_self barW [])

/-- C3 counterexample: the claim is false on the code.  The price stream has
    its only sample in hour 0 and the volume stream has its only sample in
    hour 1, so hour 1 contains zero price observations; yet the aggregator
    emits a bar for hour 1, a repeated flat bar at the forward filled price
    10, because the outer join of line 64 creates a row at the volume
    timestamp and the ffill of line 65 fills its price. -/
theorem claim_C3_counterexample :
    build_ohlcv_from_samples [(0, 10)] [(3600000, 5)]
      = .ok [{ time := 0, Open := 10, High := 10, Low := 10, Close := 10,
               Volume := 0 },
             { time := 1, Open := 10, High := 10, Low := 10, Close := 10,
               Volume := 5 }]
    ∧ (∀ x ∈ ([(0, 10)] : Samples), hourOf (toSec x.1) ≠ 1) :=
  ⟨by with_unfolding_all rfl, by decide⟩

/-- C3 amended: the aggregator emits no bar for an hour bucket containing no
    sample of either stream, so a total data gap surfaces as a missing row;
    but an hour with only volume samples is fabricated into a forward filled
    flat bar whenever an earlier price sample exists, as the counterexample
    shows. -/
theorem claim_C3_amended (all_prices all_vols : Samples)
    (bars : List HourlyBar) (g : Int)
    (hres : build_ohlcv_from_samples all_prices all_vols = .ok bars)
    (hp : ∀ x ∈ all_prices, hourOf (toSec x.1) ≠ g)
    (hv : ∀ x ∈ all_vols, hourOf (toSec x.1) ≠ g) :
    ∀ b ∈ bars, b.time ≠ g := by
  intro b hb
  rw [build_ohlcv_from_samples] at hres
  by_cases hp0 : all_prices = []
  · rw [if_pos hp0] at hres
    simp at hres
  · rw [if_neg hp0] at hres
    injection hres with hres
    subst hres
    rcases time_of_mem_resampleHourly _ b hb with ⟨r, hr, htime⟩
    rcases mem_ffill_key _ r none hr with ⟨r2, hr2, hk⟩
    rcases mem_joinedRows_key _ _ r2 hr2 with h | h
    · rcases key_of_secSamples all_prices r2.1 h with ⟨x, hx, hsec⟩
      rw [htime, ← hk, ← hsec]
      exact hp x hx
    · rcases key_of_secSamples all_vols r2.1 h with ⟨x, hx, hsec⟩
      rw [htime, ← hk, ← hsec]
      exact hv x hx

/-- barFilled is the fabricated hour one bar of the concrete run with one
    price sample in hour zero and one volume sample in hour one. -/
def barFilled : HourlyBar :=
  { time := 1, Open := 10, High := 10, Low := 10, Close := 10, Volume := 5 }

/-- C3 amended witness: the fabricated bar of the concrete run does not land
    in hour 5, which holds no sample of either stream. -/
theorem claim_C3_amended_witness : barFilled.time ≠ 5 :=
  claim_C3_amended [(0, 10)] [(3600000, 5)]
    [{ time := 0, Open := 10, High := 10, Low := 10, Close := 10,
       Volume := 0 }, barFilled] 5 (by with_unfolding_all rfl)
    (by decide) (by decide) barFilled (by decide)

/-- dictOf models the Python dict builds of fetch_via_coingecko, lines 98 to
    101 of get_btc_hourly_for_grid_research.py, and of main, lines 94 to 96
    of get_btc_hourly_coingecko.py: the stream is walked in arrival order and
    each value is written under its timestamp key, so a later write
    overwrites an earlier one at the same key. -/
def dictOf (xs : Samples) : Int → Option ℚ :=
  xs.foldl (fun m kv => fun k => if k = kv.1 then some kv.2 else m k)
    (fun _ => none)

/-- dedup_by_ts models lines 102 to 103 of
    get_btc_hourly_for_grid_research.py: the dict entries listed as pairs
    sorted ascending by timestamp key. -/
def dedup_by_ts (xs : Samples) : Samples :=
  (((xs.map Prod.fst).insertionSort (fun a b => a ≤ b)).dedup).map
    (fun k => (k, (dictOf xs k).getD 0))

theorem dictOf_append_singleton (xs : Samples) (a : Int × ℚ) (k : Int) :
    dictOf (xs ++ [a]) k = if k = a.1 then some a.2 else dictOf xs k := by
  simp [dictOf, List.foldl_append]

theorem dictOf_eq_getLast (xs : Samples) (k : Int) :
    dictOf xs k
      = ((xs.filter (fun x => decide (x.1 = k))).map Prod.snd).getLast? := by
  induction xs using List.reverseRecOn with
  | nil => rfl
  | append_singleton l a ih =>
    rw [dictOf_append_singleton, List.filter_append, List.map_append]
    by_cases h : k = a.1
    · rw [if_pos h]
      have hf : [a].filter (fun x => decide (x.1 = k)) = [a] := by simp [h.symm]
      rw [hf]
      simp only [List.map_cons, List.map_nil]
      rw [List.getLast?_concat]
    · have h2 : ¬ (a.1 = k) := fun hh => h hh.symm
      rw [if_neg h]
      have hf : [a].filter (fun x => decide (x.1 = k)) = [] := by simp [h2]
      rw [hf]
      simp only [List.map_nil, List.append_nil]
      exact ih

/-- C4: deduplication is last write wins by timestamp key.  For every stream
    in arrival order the dict holds, at each key, the value of the last
    sample with that key; and the concrete chunk scenario of the
    specification, two chunks overlapping at timestamp 2000, deduplicates to
    the expected ascending series with the later value 12.5 at key 2000. -/
theorem claim_C4_dedup_last_write_wins :
    (∀ (xs : Samples) (k : Int),
        dictOf xs k
          = ((xs.filter (fun x => decide (x.1 = k))).map Prod.snd).getLast?)
    ∧ dedup_by_ts [(1000, 10), (2000, 12), (2000, mkRat 25 2), (3600000, 15)]
        = [(1000, 10), (2000, mkRat 25 2), (3600000, 15)] :=
  ⟨dictOf_eq_getLast, by decide⟩

/-- HttpResp is one observed outcome of a requests.get call: an HTTP response
    with a status code and a payload identifier, or a transport level error
    such as a timeout, which requests raises as a RequestException. -/
inductive HttpResp where
  | status (code : Nat) (data : Nat)
  | transport
  deriving DecidableEq, Repr

/-- FetchErr is a raised fetch error: the RuntimeError after the retry loop
    exhausts its attempts, or a re raised HTTPError with its status code. -/
inductive FetchErr where
  | exhausted
  | httpError (code : Nat)
  deriving DecidableEq, Repr

/-- FetchOutcome pairs the backoff sleeps performed, in seconds and in order,
    with the result: the payload of a returned response or the raised
    error. -/
abbrev FetchOutcome := List Nat × Except FetchErr Nat

/-- addSleep records one backoff sleep in front of an outcome. -/
def addSleep (s : Nat) (o : FetchOutcome) : FetchOutcome := (s :: o.1, o.2)

/-- raise_for_status is the condition under which requests
    Response.raise_for_status raises an HTTPError: any status from 400 to
    599. -/
def raise_for_status (code : Nat) : Bool := 400 ≤ code && code < 600

/-- fetch_range_step is the body of one attempt of the CoinGecko retry loop,
    fetch_range in get_btc_hourly_coingecko.py lines 39 to 56 and
    fetch_coingecko_range in get_btc_hourly_for_grid_research.py lines 41 to
    51, applied to the response of this attempt.  A 200 returns the body.  A
    status in the explicit retry tuple 429, 502, 503, 504 sleeps two to the
    power attempt and continues.  Any other status from 400 to 599 makes
    raise_for_status raise, and the raised HTTPError is caught by the broad
    except clause of the loop, which also sleeps and continues.  A non 200
    status outside 400 to 599 falls off the end of the try block and
    continues without sleeping.  A transport error is caught by the same
    except clause: sleep and continue. -/
def fetch_range_step (attempt : Nat) (next : FetchOutcome) :
    HttpResp → FetchOutcome
  | .status code d =>
      if code = 200 then ([], .ok d)
      else if code = 429 ∨ code = 502 ∨ code = 503 ∨ code = 504 then
        addSleep (2 ^ attempt) next
      else if raise_for_status code then addSleep (2 ^ attempt) next
      else next
  | .transport => addSleep (2 ^ attempt) next

/-- fetch_range_go runs the CoinGecko retry loop from a given attempt index
    with the given number of attempts left; when the for loop over six
    attempts ends without returning, a RuntimeError is raised. -/
def fetch_range_go (env : Nat → HttpResp) (attempt : Nat) : Nat → FetchOutcome
  | 0 => ([], .error .exhausted)
  | fuel + 1 =>
      fetch_range_step attempt (fetch_range_go env (attempt + 1) fuel)
        (env attempt)

/-- fetch_range is the whole CoinGecko fetch of one chunk: six attempts
    starting at attempt zero against the response environment. -/
def fetch_range (env : Nat → HttpResp) : FetchOutcome := fetch_range_go env 0 6

/-- binance_retryable is the condition of the HTTPError handler in
    fetch_chunk of get_btcusdt_hourly.py line 39: status 429 or 418 or any
    5xx backs off, anything else re raises. -/
def binance_retryable (code : Nat) : Bool :=
  code = 429 || code = 418 || (500 ≤ code && code < 600)

/-- fetch_chunk_step is the body of one attempt of fetch_chunk in
    get_btcusdt_hourly.py lines 32 to 49: raise_for_status raises on any 400
    to 599 status; the HTTPError handler sleeps two to the power attempt and
    continues only for 429, 418 and 5xx and re raises otherwise; a transport
    error sleeps and continues; a response that does not raise is
    returned. -/
def fetch_chunk_step (attempt : Nat) (next : FetchOutcome) :
    HttpResp → FetchOutcome
  | .status code d =>
      if raise_for_status code then
        if binance_retryable code then addSleep (2 ^ attempt) next
        else ([], .error (.httpError code))
      else ([], .ok d)
  | .transport => addSleep (2 ^ attempt) next

/-- fetch_chunk_go runs the Binance retry loop from a given attempt with the
    given attempts left; after the six attempt loop a RuntimeError is
    raised. -/
def fetch_chunk_go (env : Nat → HttpResp) (attempt : Nat) : Nat → FetchOutcome
  | 0 => ([], .error .exhausted)
  | fuel + 1 =>
      fetch_chunk_step attempt (fetch_chunk_go env (attempt + 1) fuel)
        (env attempt)

/-- fetch_chunk is the whole Binance fetch of one chunk: six attempts
    starting at attempt zero. -/
def fetch_chunk (env : Nat → HttpResp) : FetchOutcome := fetch_chunk_go env 0 6

/-- cg_retries holds for the responses after which the CoinGecko loop sleeps
    and moves to the next attempt: a transport error or any status from 400
    to 599. -/
def cg_retries : HttpResp → Bool
  | .status code _ => raise_for_status code
  | .transport => true

/-- binance_retries holds for the responses after which the Binance loop
    sleeps and moves to the next attempt: a transport error or a retryable
    raising status. -/
def binance_retries : HttpResp → Bool
  | .status code _ => raise_for_status code && binance_retryable code
  | .transport => true

theorem fetch_range_go_exhaust (env : Nat → HttpResp) :
    ∀ fuel attempt : Nat,
      (∀ i, attempt ≤ i → i < attempt + fuel → cg_retries (env i) = true) →
      fetch_range_go env attempt fuel
        = ((List.range' attempt fuel).map (fun i => 2 ^ i),
           .error .exhausted) := by
  intro fuel
  induction fuel with
  | zero => intro attempt _; rfl
  | succ fuel ih =>
    intro attempt h
    have h0 := h attempt (le_refl _) (by omega)
    have hnext := ih (attempt + 1) (fun i h1 h2 => h i (by omega) (by omega))
    rw [fetch_range_go]
    cases henv : env attempt with
    | status code d =>
      rw [henv] at h0
      simp only [cg_retries, raise_for_status, Bool.and_eq_true,
        decide_eq_true_eq] at h0
      rw [fetch_range_step]
      rw [if_neg (by omega : ¬ code = 200)]
      by_cases hr : code = 429 ∨ code = 502 ∨ code = 503 ∨ code = 504
      · rw [if_pos hr, hnext, List.range'_succ]
        simp [addSleep]
      · rw [if_neg hr,
          if_pos (by simp only [raise_for_status, Bool.and_eq_true,
            decide_eq_true_eq]; omega),
          hnext, List.range'_succ]
        simp [addSleep]
    | transport =>
      rw [fetch_range_step, hnext, List.range'_succ]
      simp [addSleep]

theorem fetch_range_go_success (env : Nat → HttpResp) (d : Nat) :
    ∀ k fuel attempt : Nat, k < fuel →
      (∀ i, attempt ≤ i → i < attempt + k → cg_retries (env i) = true) →
      env (attempt + k) = .status 200 d →
      fetch_range_go env attempt fuel
        = ((List.range' attempt k).map (fun i => 2 ^ i), .ok d) := by
  intro k
  induction k with
  | zero =>
    intro fuel attempt hk h henv
    cases fuel with
    | zero => omega
    | succ fuel =>
      rw [fetch_range_go, (by rw [Nat.add_zero] at henv; exact henv :
        env attempt = .status 200 d)]
      rw [fetch_range_step, if_pos rfl]
      rfl
  | succ k ih =>
    intro fuel attempt hk h henv
    cases fuel with
    | zero => omega
    | succ fuel =>
      have h0 := h attempt (le_refl _) (by omega)
      have henv2 : env (attempt + 1 + k) = .status 200 d := by
        rw [(by omega : attempt + 1 + k = attempt + (k + 1))]
        exact henv
      have hnext := ih fuel (attempt + 1) (by omega)
        (fun i h1 h2 => h i (by omega) (by omega)) henv2
      rw [fetch_range_go]
      cases henvat : env attempt with
      | status code d2 =>
        rw [henvat] at h0
        simp only [cg_retries, raise_for_status, Bool.and_eq_true,
          decide_eq_true_eq] at h0
        rw [fetch_range_step]
        rw [if_neg (by omega : ¬ code = 200)]
        by_cases hr : code = 429 ∨ code = 502 ∨ code = 503 ∨ code = 504
        · rw [if_pos hr, hnext, List.range'_succ]
          simp [addSleep]
        · rw [if_neg hr,
            if_pos (by simp only [raise_for_status, Bool.and_eq_true,
              decide_eq_true_eq]; omega),
            hnext, List.range'_succ]
          simp [addSleep]
      | transport =>
        rw [fetch_range_step, hnext, List.range'_succ]
        simp [addSleep]

theorem fetch_chunk_go_exhaust (env : Nat → HttpResp) :
    ∀ fuel attempt : Nat,
      (∀ i, attempt ≤ i → i < attempt + fuel → binance_retries (env i) = true) →
      fetch_chunk_go env attempt fuel
        = ((List.range' attempt fuel).map (fun i => 2 ^ i),
           .error .exhausted) := by
  intro fuel
  induction fuel with
  | zero => intro attempt _; rfl
  | succ fuel ih =>
    intro attempt h
    have h0 := h attempt (le_refl _) (by omega)
    have hnext := ih (attempt + 1) (fun i h1 h2 => h i (by omega) (by omega))
    rw [fetch_chunk_go]
    cases henv : env attempt with
    | status code d =>
      rw [henv] at h0
      simp only [binance_retries, Bool.and_eq_true] at h0
      rw [fetch_chunk_step, if_pos h0.1, if_pos h0.2, hnext, List.range'_succ]
      simp [addSleep]
    | transport =>
      rw [fetch_chunk_step, hnext, List.range'_succ]
      simp [addSleep]

/-- C5 amended: all three fetchers retry with backoff two to the power
    attempt for at most six attempts and raise an exhaustion error after the
    sixth failure, and the Binance fetcher re raises immediately on a non
    retryable HTTP error; but the CoinGecko fetchers do not fail immediately
    on other non 2xx statuses: every status from 400 to 599 is retried there,
    because the error raised by raise_for_status is caught by the broad
    except clause of the retry loop. -/
theorem claim_C5_retry_policy_amended :
    (∀ env : Nat → HttpResp,
        (∀ i, i < 6 → cg_retries (env i) = true) →
        fetch_range env = ([1, 2, 4, 8, 16, 32], .error .exhausted))
    ∧ (∀ (env : Nat → HttpResp) (k d : Nat), k < 6 →
        (∀ i, i < k → cg_retries (env i) = true) →
        env k = .status 200 d →
        fetch_range env = ((List.range k).map (fun i => 2 ^ i), .ok d))
    ∧ (∀ (env : Nat → HttpResp) (code d : Nat),
        env 0 = .status code d → raise_for_status code = true →
        binance_retryable code = false →
        fetch_chunk env = ([], .error (.httpError code)))
    ∧ (∀ env : Nat → HttpResp,
        (∀ i, i < 6 → binance_retries (env i) = true) →
        fetch_chunk env = ([1, 2, 4, 8, 16, 32], .error .exhausted)) := by
  refine ⟨?_, ?_, ?_, ?_⟩
  · intro env h
    rw [fetch_range, fetch_range_go_exhaust env 6 0
      (fun i h1 h2 => h i (by omega))]
    rfl
  · intro env k d hk h henv
    rw [fetch_range, fetch_range_go_success env d k 6 0 hk
      (fun i h1 h2 => h i (by omega)) (by rw [Nat.zero_add]; exact henv),
      List.range_eq_range']
  · intro env code d henv hrs hnr
    rw [fetch_chunk, fetch_chunk_go, henv, fetch_chunk_step, if_pos hrs,
      if_neg (by rw [hnr]; exact Bool.false_ne_true)]
  · intro env h
    rw [fetch_chunk, fetch_chunk_go_exhaust env 6 0
      (fun i h1 h2 => h i (by omega))]
    rfl

/-- env400 answers the first request with HTTP 400 and every later one with
    a 200 carrying payload 7. -/
def env400 : Nat → HttpResp :=
  fun i => if i = 0 then .status 400 0 else .status 200 7

/-- C5 counterexample: the claim states that on a non 2xx status outside the
    retry set the fetch fails immediately for that provider with no further
    retry, but the CoinGecko fetch catches the HTTPError raised by
    raise_for_status in its broad except clause, sleeps one second and
    retries: against a 400 then a 200 it returns the 200 payload after one
    backoff sleep instead of failing at once. -/
theorem claim_C5_counterexample :
    fetch_range env400 = ([1], .ok 7)
    ∧ fetch_range env400 ≠ ([], .error (.httpError 400)) :=
  ⟨by decide, by decide⟩

/-- C5 witness: the amended policy applied to four concrete environments:
    all transport errors, a 400 then a 200, a constant 404, and a constant
    503. -/
theorem claim_C5_retry_policy_amended_witness :
    fetch_range (fun _ => .transport) = ([1, 2, 4, 8, 16, 32], .error .exhausted)
    ∧ fetch_range env400 = ((List.range 1).map (fun i => 2 ^ i), .ok 7)
    ∧ fetch_chunk (fun _ => .status 404 0) = ([], .error (.httpError 404))
    ∧ fetch_chunk (fun _ => .status 503 0)
        = ([1, 2, 4, 8, 16, 32], .error .exhausted) :=
  ⟨claim_C5_retry_policy_amended.1 (fun _ => .transport) (by decide),
   claim_C5_retry_policy_amended.2.1 env400 1 7 (by decide) (by decide)
     (by decide),
   claim_C5_retry_policy_amended.2.2.1 (fun _ => .status 404 0) 404 0 rfl
     (by decide) (by decide),
   claim_C5_retry_policy_amended.2.2.2 (fun _ => .status 503 0) (by decide)⟩

/-- btcusdt_page models the pagination while loop of main in
    get_btcusdt_hourly.py lines 89 to 132.  env i is the chunk fetch_chunk
    returns on iteration i, reduced to the list of kline open times in
    milliseconds, which is all the loop control reads.  The loop runs while
    the cursor is below end_ms, stops on an empty chunk, appends the chunk,
    advances the cursor to the last open time plus one hour in milliseconds,
    and then applies the two break checks of the source: cursor at most the
    original start_ms, the no progress guard, and cursor at least end_ms.
    The fuel argument unfolds at most that many iterations; none means the
    loop was still running when the fuel ran out, so a none for every fuel
    witnesses an infinite loop. -/
def btcusdt_page (env : Nat → List Int) (start_ms end_ms : Int) :
    Nat → Nat → Int → List Int → Option (List Int)
  | 0, _, _, _ => none
  | fuel + 1, i, next_start_ms, all_rows =>
    if next_start_ms < end_ms then
      match env i with
      | [] => some all_rows
      | k :: ks =>
          if (k :: ks).getLastD 0 + 3600 * 1000 ≤ start_ms then
            some (all_rows ++ (k :: ks))
          else if end_ms ≤ (k :: ks).getLastD 0 + 3600 * 1000 then
            some (all_rows ++ (k :: ks))
          else
            btcusdt_page env start_ms end_ms fuel (i + 1)
              ((k :: ks).getLastD 0 + 3600 * 1000) (all_rows ++ (k :: ks))
    else some all_rows

/-- binance_klines_page models the pagination while loop of
    fetch_binance_klines in get_btc_hourly_for_grid_research.py lines 114 to
    130: run while the cursor is below end_ms, stop on an empty chunk,
    append, and advance the cursor to the last open time plus one
    millisecond; this loop has no stall guard at all. -/
def binance_klines_page (env : Nat → List Int) (end_ms : Int) :
    Nat → Nat → Int → List Int → Option (List Int)
  | 0, _, _, _ => none
  | fuel + 1, i, start_ms, rows =>
    if start_ms < end_ms then
      match env i with
      | [] => some rows
      | k :: ks =>
          binance_klines_page env end_ms fuel (i + 1)
            ((k :: ks).getLastD 0 + 1) (rows ++ (k :: ks))
    else some rows

/-- stall_env is a provider that answers every request with the same single
    kline whose open time is hour one, regardless of the requested start
    cursor. -/
def stall_env : Nat → List Int := fun _ => [3600000]

theorem btcusdt_page_stalls (fuel : Nat) :
    ∀ (i : Nat) (c : Int) (rows : List Int), c < 100000000 →
      btcusdt_page stall_env 0 100000000 fuel i c rows = none := by
  induction fuel with
  | zero => intros; rfl
  | succ fuel ih =>
    intro i c rows hc
    rw [btcusdt_page, if_pos hc]
    show (if (3600000 : Int) + 3600 * 1000 ≤ 0 then _
      else if (100000000 : Int) ≤ 3600000 + 3600 * 1000 then _ else _) = none
    rw [if_neg (by norm_num), if_neg (by norm_num)]
    exact ih (i + 1) 7200000 _ (by norm_num)

theorem binance_klines_page_stalls (fuel : Nat) :
    ∀ (i : Nat) (c : Int) (rows : List Int), c < 10 →
      binance_klines_page (fun _ => [0]) 10 fuel i c rows = none := by
  induction fuel with
  | zero => intros; rfl
  | succ fuel ih =>
    intro i c rows hc
    rw [binance_klines_page, if_pos hc]
    exact ih (i + 1) 1 _ (by norm_num)

/-- C6: the claim matches the intent the source states in its own comments,
    safety break if no progress, but both pagination loops violate it.  The
    loop of get_btcusdt_hourly.py compares the advanced cursor with the
    original start_ms instead of the previous cursor, so a provider that
    keeps answering the same hour one kline inside the window keeps the
    cursor at a constant hour two forever and no break fires; the loop of
    fetch_binance_klines advances by one millisecond, not one hour, and has
    no stall guard, so a constant chunk with open time zero pins the cursor
    at one forever.  For every amount of fuel both loops are still
    running. -/
theorem claim_C6_pagination_nonterminating :
    (∀ fuel : Nat, btcusdt_page stall_env 0 100000000 fuel 0 0 [] = none)
    ∧ (∀ fuel : Nat,
        binance_klines_page (fun _ => [0]) 10 fuel 0 0 [] = none) :=
  ⟨fun fuel => btcusdt_page_stalls fuel 0 0 [] (by norm_num),
   fun fuel => binance_klines_page_stalls fuel 0 0 [] (by norm_num)⟩

/-- DT is a Python datetime value in UTC, split into its components. -/
structure DT where
  year : Int
  month : Int
  day : Int
  hour : Int
  minute : Int
  second : Int
  microsecond : Int
  deriving DecidableEq, Repr

/-- truncToHour is the replace call that zeroes minute, second and
    microsecond, truncating an instant to the top of its hour. -/
def truncToHour (d : DT) : DT :=
  { d with minute := 0, second := 0, microsecond := 0 }

theorem truncToHour_year (d : DT) : (truncToHour d).year = d.year := rfl

theorem truncToHour_month (d : DT) : (truncToHour d).month = d.month := rfl

theorem truncToHour_day (d : DT) : (truncToHour d).day = d.day := rfl

/-- rollMonth is the while loop shared by all three scripts: while the month
    index is at most zero, add twelve months and go back one year. -/
def rollMonth (y m : Int) : Int × Int :=
  if m ≤ 0 then rollMonth (y - 1) (m + 12) else (y, m)
termination_by (1 - m).toNat
decreasing_by omega

/-- isLeap is the Gregorian leap year rule used by the Python datetime
    module. -/
def isLeap (y : Int) : Bool :=
  (y % 4 == 0 && !(y % 100 == 0)) || y % 400 == 0

/-- days_in_month is the month length the Python datetime constructor
    validates the day against. -/
def days_in_month (y m : Int) : Int :=
  if m = 2 then (if isLeap y then 29 else 28)
  else if m = 4 ∨ m = 6 ∨ m = 9 ∨ m = 11 then 30
  else 31

/-- mkDate models the Python datetime constructor datetime(year, month, day)
    at midnight: it raises ValueError unless the year lies in 1 to 9999, the
    month in 1 to 12 and the day in 1 to the month length. -/
def mkDate (y m d : Int) : Except String DT :=
  if 1 ≤ y ∧ y ≤ 9999 ∧ 1 ≤ m ∧ m ≤ 12 ∧ 1 ≤ d ∧ d ≤ days_in_month y m then
    .ok ⟨y, m, d, 0, 0, 0, 0⟩
  else .error "ValueError"

/-- ValidDT says a DT is a value the Python datetime type can actually hold,
    the guarantee every datetime.now or constructed instant carries. -/
def ValidDT (d : DT) : Prop :=
  1 ≤ d.year ∧ d.year ≤ 9999 ∧ 1 ≤ d.month ∧ d.month ≤ 12
  ∧ 1 ≤ d.day ∧ d.day ≤ days_in_month d.year d.month
  ∧ 0 ≤ d.hour ∧ d.hour < 24 ∧ 0 ≤ d.minute ∧ d.minute < 60
  ∧ 0 ≤ d.second ∧ d.second < 60
  ∧ 0 ≤ d.microsecond ∧ d.microsecond < 1000000

instance (d : DT) : Decidable (ValidDT d) := by
  unfold ValidDT
  infer_instance

/-- plan_coingecko models the window computation of main in
    get_btc_hourly_coingecko.py lines 61 to 70 and, identically, of main in
    get_btc_hourly_for_grid_research.py lines 149 to 155: the end is now with
    minute, second and microsecond zeroed; the month index now.month minus
    months is rolled up by twelves with the year going back; the start is day
    one of that month at midnight, built by the validating datetime
    constructor. -/
def plan_coingecko (months : Int) (now : DT) : Except String (DT × DT) :=
  let end_dt := truncToHour now
  let ym := rollMonth end_dt.year (end_dt.month - months)
  match mkDate ym.1 ym.2 1 with
  | .ok start_dt => .ok (start_dt, end_dt)
  | .error e => .error e

/-- plan_btcusdt models the window computation of main in
    get_btcusdt_hourly.py lines 61 to 77: same end and same month rollover,
    but the start day is min(end.day, 28) instead of one, at midnight. -/
def plan_btcusdt (months : Int) (now : DT) : Except String (DT × DT) :=
  let end_dt := truncToHour now
  let ym := rollMonth end_dt.year (end_dt.month - months)
  match mkDate ym.1 ym.2 (min end_dt.day 28) with
  | .ok start_dt => .ok (start_dt, end_dt)
  | .error e => .error e

theorem rollMonth_month_mem (y m : Int) (h : m ≤ 12) :
    1 ≤ (rollMonth y m).2 ∧ (rollMonth y m).2 ≤ 12 := by
  induction y, m using rollMonth.induct with
  | case1 y m hle ih =>
    rw [rollMonth, if_pos hle]
    exact ih (by omega)
  | case2 y m hgt =>
    rw [rollMonth, if_neg hgt]
    omega

theorem rollMonth_year_le (y m : Int) : (rollMonth y m).1 ≤ y := by
  induction y, m using rollMonth.induct with
  | case1 y m hle ih =>
    rw [rollMonth, if_pos hle]
    omega
  | case2 y m hgt =>
    rw [rollMonth, if_neg hgt]

theorem days_in_month_ge (y m : Int) : 28 ≤ days_in_month y m := by
  rw [days_in_month]
  split
  · split <;> norm_num
  · split <;> norm_num

theorem plan_coingecko_eq (months : Int) (now : DT) :
    plan_coingecko months now
      = match mkDate (rollMonth now.year (now.month - months)).1
          (rollMonth now.year (now.month - months)).2 1 with
        | .ok s => .ok (s, truncToHour now)
        | .error e => .error e := by
  simp only [plan_coingecko, truncToHour_year, truncToHour_month]

theorem plan_btcusdt_eq (months : Int) (now : DT) :
    plan_btcusdt months now
      = match mkDate (rollMonth now.year (now.month - months)).1
          (rollMonth now.year (now.month - months)).2 (min now.day 28) with
        | .ok s => .ok (s, truncToHour now)
        | .error e => .error e := by
  simp only [plan_btcusdt, truncToHour_year, truncToHour_month,
    truncToHour_day]

theorem plan_coingecko_eq2 (months y m : Int) (now : DT)
    (hroll : rollMonth now.year (now.month - months) = (y, m)) :
    plan_coingecko months now
      = match mkDate y m 1 with
        | .ok s => .ok (s, truncToHour now)
        | .error e => .error e := by
  rw [plan_coingecko_eq, hroll]

theorem plan_btcusdt_eq2 (months y m : Int) (now : DT)
    (hroll : rollMonth now.year (now.month - months) = (y, m)) :
    plan_btcusdt months now
      = match mkDate y m (min now.day 28) with
        | .ok s => .ok (s, truncToHour now)
        | .error e => .error e := by
  rw [plan_btcusdt_eq, hroll]

/-- now0315 is the reference instant 2024-03-15T10:00:00Z of scenario A. -/
def now0315 : DT := ⟨2024, 3, 15, 10, 0, 0, 0⟩

/-- C7 counterexample: scenario A fails on get_btcusdt_hourly.py, one of the
    two planners the claim covers: with months_back one and now
    2024-03-15T10:00:00Z it anchors start at 2024-02-15T00:00:00Z, day
    fifteen via min(end.day, 28), not the first day of the month the claim
    requires. -/
theorem claim_C7_counterexample :
    plan_btcusdt 1 now0315 = .ok (⟨2024, 2, 15, 0, 0, 0, 0⟩, now0315)
    ∧ (⟨2024, 2, 15, 0, 0, 0, 0⟩ : DT).day ≠ 1 := by
  refine ⟨?_, by decide⟩
  rw [plan_btcusdt_eq2 1 2024 2 now0315 (by simp [now0315, rollMonth])]
  rw [show min now0315.day 28 = 15 from by norm_num [now0315, min_def]]
  rw [mkDate, if_pos (by norm_num [days_in_month, isLeap])]
  rfl

/-- C7 amended: for every positive months_back and valid now, the end of the
    window is now truncated to the hour in all three scripts; the computed
    month index is rolled into 1 to 12 with the year going back; the two
    CoinGecko based scripts start at midnight of the first day of that month,
    while get_btcusdt_hourly.py starts at midnight of day min(now.day, 28) of
    that month; planning succeeds whenever the rolled back year is still at
    least one. -/
theorem claim_C7_window_plan_amended (months y m : Int) (now : DT)
    (hm : 0 < months) (hv : ValidDT now)
    (hroll : rollMonth now.year (now.month - months) = (y, m)) (hy : 1 ≤ y) :
    plan_coingecko months now = .ok (⟨y, m, 1, 0, 0, 0, 0⟩, truncToHour now)
    ∧ plan_btcusdt months now
        = .ok (⟨y, m, min now.day 28, 0, 0, 0, 0⟩, truncToHour now)
    ∧ 1 ≤ m ∧ m ≤ 12
    ∧ (truncToHour now).hour = now.hour ∧ (truncToHour now).minute = 0
    ∧ (truncToHour now).second = 0 ∧ (truncToHour now).microsecond = 0 := by
  obtain ⟨h1, h2, h3, h4, h5, h6, _⟩ := hv
  have hmm := rollMonth_month_mem now.year (now.month - months) (by omega)
  rw [hroll] at hmm
  have hyle := rollMonth_year_le now.year (now.month - months)
  rw [hroll] at hyle
  have hd28 := days_in_month_ge y m
  refine ⟨?_, ?_, hmm.1, hmm.2, rfl, rfl, rfl, rfl⟩
  · rw [plan_coingecko_eq2 months y m now hroll,
      mkDate, if_pos ⟨hy, by omega, hmm.1, hmm.2, by norm_num, by omega⟩]
  · rw [plan_btcusdt_eq2 months y m now hroll,
      mkDate, if_pos ⟨hy, by omega, hmm.1, hmm.2, by omega, by omega⟩]

/-- C7 witness: the amended window theorem at months_back one and now
    2024-03-15T10:00:00Z: the CoinGecko planners yield start
    2024-02-01T00:00:00Z and end 2024-03-15T10:00:00Z, the Binance script
    yields start day fifteen. -/
theorem claim_C7_window_plan_amended_witness :
    plan_coingecko 1 now0315 = .ok (⟨2024, 2, 1, 0, 0, 0, 0⟩, now0315)
    ∧ plan_btcusdt 1 now0315
        = .ok (⟨2024, 2, min now0315.day 28, 0, 0, 0, 0⟩, now0315)
    ∧ 1 ≤ (2 : Int) ∧ (2 : Int) ≤ 12
    ∧ (truncToHour now0315).hour = now0315.hour
    ∧ (truncToHour now0315).minute = 0 ∧ (truncToHour now0315).second = 0
    ∧ (truncToHour now0315).microsecond = 0 :=
  claim_C7_window_plan_amended 1 2024 2 now0315 (by norm_num) (by decide)
    (by simp [now0315, rollMonth]) (by norm_num)

/-- C8 counterexample: with months_back zero, a value the claim says must
    fail with InvalidArgument before any fetch, both planners succeed and
    return a window starting in the current month. -/
theorem claim_C8_counterexample :
    plan_coingecko 0 now0315 = .ok (⟨2024, 3, 1, 0, 0, 0, 0⟩, now0315)
    ∧ plan_btcusdt 0 now0315 = .ok (⟨2024, 3, 15, 0, 0, 0, 0⟩, now0315) := by
  constructor
  · rw [plan_coingecko_eq2 0 2024 3 now0315 (by simp [now0315, rollMonth])]
    rw [mkDate, if_pos (by norm_num [days_in_month, isLeap])]
    rfl
  · rw [plan_btcusdt_eq2 0 2024 3 now0315 (by simp [now0315, rollMonth])]
    rw [show min now0315.day 28 = 15 from by norm_num [now0315, min_def]]
    rw [mkDate, if_pos (by norm_num [days_in_month, isLeap])]
    rfl

/-- C8 amended: no months_back validation exists.  For months_back at most
    zero, planning succeeds exactly when now.month minus months_back is at
    most twelve, and fails only with the ValueError of the datetime
    constructor itself, not with an InvalidArgument check; in particular
    months_back zero always succeeds with start the first day of the current
    month and the run proceeds to fetch. -/
theorem claim_C8_no_validation_amended (months : Int) (now : DT)
    (hm : months ≤ 0) (hv : ValidDT now) :
    ((∃ w, plan_coingecko months now = .ok w) ↔ now.month - months ≤ 12)
    ∧ ((∃ w, plan_btcusdt months now = .ok w) ↔ now.month - months ≤ 12)
    ∧ plan_coingecko 0 now
        = .ok (⟨now.year, now.month, 1, 0, 0, 0, 0⟩, truncToHour now) := by
  obtain ⟨h1, h2, h3, h4, h5, h6, _⟩ := hv
  have hroll : rollMonth now.year (now.month - months)
      = (now.year, now.month - months) := by
    rw [rollMonth, if_neg (by omega)]
  have hd28 := days_in_month_ge now.year (now.month - months)
  refine ⟨?_, ?_, ?_⟩
  · rw [plan_coingecko_eq2 months now.year (now.month - months) now hroll]
    by_cases hle : now.month - months ≤ 12
    · rw [mkDate, if_pos ⟨h1, h2, by omega, hle, by norm_num, by omega⟩]
      simp [hle]
    · rw [mkDate, if_neg (fun hc => hle hc.2.2.2.1)]
      simp [hle]
  · rw [plan_btcusdt_eq2 months now.year (now.month - months) now hroll]
    by_cases hle : now.month - months ≤ 12
    · rw [mkDate, if_pos ⟨h1, h2, by omega, hle, by omega, by omega⟩]
      simp [hle]
    · rw [mkDate, if_neg (fun hc => hle hc.2.2.2.1)]
      simp [hle]
  · rw [plan_coingecko_eq2 0 now.year now.month now (by
      rw [Int.sub_zero, rollMonth, if_neg (by omega)])]
    rw [mkDate, if_pos ⟨h1, h2, h3, h4, by norm_num, by
      have := days_in_month_ge now.year now.month
      omega⟩]

/-- C8 amended witness: at months_back zero and now 2024-03-15T10:00:00Z the
    theorem yields success of both planners. -/
theorem claim_C8_no_validation_amended_witness :
    ((∃ w, plan_coingecko 0 now0315 = .ok w) ↔ now0315.month - 0 ≤ 12)
    ∧ ((∃ w, plan_btcusdt 0 now0315 = .ok w) ↔ now0315.month - 0 ≤ 12)
    ∧ plan_coingecko 0 now0315
        = .ok (⟨now0315.year, now0315.month, 1, 0, 0, 0, 0⟩,
            truncToHour now0315) :=
  claim_C8_no_validation_amended 0 now0315 (le_refl 0) (by decide)
